import Mathlib

/-!
# AgenticSearch — verification of the orchestration and citation pipeline

Shallow embedding, in Lean 4, of the core of the AgenticSearch research
agent: the citation stripper, the claim extractor (validation, fuzzy
repair, merge), the basis builder, the streaming tool-call accumulator,
the research orchestration loop, the tool dispatcher's source discovery,
the research-state reducer, the excerpt batch fetcher's worker pool, and
the overall-confidence scoring.

Strings from the TypeScript source are embedded as `List Char` wherever
character-level slicing matters (JavaScript `slice`, `indexOf`,
`takeWhile`-style scans); identifiers and URLs that are only compared
for equality are embedded as `String`.  JavaScript numbers that are used
as character offsets or counters are embedded as `Nat` or `Int`
(matching the sign behaviour the code relies on); no floating-point
behaviour is load-bearing for the verified properties.
-/

namespace AgenticSearch

/-- JavaScript `s.slice(start, stop)` on a string with non-negative,
clamped indices (as a `List Char`). -/
def jsSlice (s : List Char) (start stop : Nat) : List Char :=
  (s.take stop).drop start

/-- JavaScript `haystack.indexOf(needle)` for strings: the first index at
which `needle` occurs as a contiguous substring, if any.  `indexOf` of the
empty string is `some 0`, as in JavaScript. -/
def indexOfSub (haystack needle : List Char) : Option Nat :=
  (List.range (haystack.length + 1)).find? (fun i => needle.isPrefixOf (haystack.drop i))

theorem jsSlice_eq_take_drop (s : List Char) (start stop : Nat) :
    jsSlice s start stop = (s.drop start).take (stop - start) := by
  simp [jsSlice, List.drop_take]

theorem indexOfSub_spec {haystack needle : List Char} {i : Nat}
    (h : indexOfSub haystack needle = some i) :
    needle = jsSlice haystack i (i + needle.length) := by
  have h' := List.find?_some h
  rw [jsSlice_eq_take_drop]
  have hp : needle.isPrefixOf (haystack.drop i) = true := h'
  have hpre : needle <+: haystack.drop i := List.isPrefixOf_iff_prefix.mp hp
  have := List.prefix_iff_eq_take.mp hpre
  simpa [Nat.add_sub_cancel_left] using this

/-! ## Claim extractor (`src/lib/citation-mode/claim-extractor.ts`)

`extractClaims` asks an LLM for `{text, start, end}` claim records and then
validates and repairs them with `validateClaimExtractionResult`, using plain
`indexOf` relocation and, as a last resort, `findFuzzyMatch`. -/

/-- JavaScript's `\s` whitespace class restricted to the ASCII characters
that occur in this pipeline's texts. -/
def jsIsSpace (c : Char) : Bool :=
  c = ' ' || c = '\t' || c = '\n' || c = '\r' || c = '\x0b' || c = '\x0c'

/-- JavaScript `s.replace(/\s+/g, ' ')`: every maximal run of whitespace is
replaced by a single space. -/
def collapseWs : List Char → List Char
  | [] => []
  | c :: rest =>
    if jsIsSpace c then ' ' :: collapseWs (rest.dropWhile jsIsSpace)
    else c :: collapseWs rest
termination_by s => s.length
decreasing_by
  · exact Nat.lt_succ_of_le (List.Sublist.length_le (List.dropWhile_sublist _))
  · exact Nat.lt_succ_self rest.length

/-- JavaScript `s.trim()` (whitespace removed from both ends). -/
def jsTrim (s : List Char) : List Char :=
  ((s.dropWhile jsIsSpace).reverse.dropWhile jsIsSpace).reverse

/-- The sentence-terminator class `[.!?\n]` used by the fuzzy matcher's
`split(/[.!?\n]/)[0]`. -/
def fuzzySentenceStop (c : Char) : Bool :=
  c = '.' || c = '!' || c = '?' || c = '\n'

/-- One attempt of the fuzzy matcher's inner loop, at start position `i`:
compare the normalized candidate window against the normalized search
substring and, on a hit, take the matched region extended to the nearest
following sentence terminator. -/
def fuzzyTryAt (text searchText searchSubstring : List Char) (i : Nat) :
    Option (Nat × Nat × List Char) :=
  let candidate := jsSlice text i (i + searchSubstring.length + 50)
  let normalizedCandidate := collapseWs (candidate.map Char.toLower)
  if searchSubstring.isPrefixOf normalizedCandidate then
    let endIndex := i + min (searchText.length + 20) candidate.length
    let actualText := (jsSlice text i endIndex).takeWhile (fun c => !(fuzzySentenceStop c))
    if searchSubstring.length ≤ actualText.length then
      some (i, i + actualText.length, actualText)
    else none
  else none

/-- `findFuzzyMatch(text, searchText)`: normalize the search text
(lowercase, collapse whitespace, trim), then slide a shrinking word window
(from the full word count down to `wordCount - 2`, at least 1) over the
text; the first hit yields `{start, end, text}` for the corrected claim.
The guard `text.length < searchSubstring.length` reflects the JavaScript
`for` loop bound `i <= text.length - searchSubstring.length` computed in
(possibly negative) exact arithmetic. -/
def findFuzzyMatch (text searchText : List Char) : Option (Nat × Nat × List Char) :=
  let normalizedSearch := jsTrim (collapseWs (searchText.map Char.toLower))
  let words := normalizedSearch.splitOn ' '
  let minWords := max 1 (words.length - 2)
  (List.range (words.length + 1 - minWords)).findSome? (fun k =>
    let windowSize := words.length - k
    let searchSubstring := List.intercalate [' '] (words.take windowSize)
    if text.length < searchSubstring.length then none
    else (List.range (text.length - searchSubstring.length + 1)).findSome? (fun i =>
      fuzzyTryAt text searchText searchSubstring i))

/-- A claim range `{start, end}`; the TypeScript field `end` is embedded as
`stop` (`end` is a Lean keyword). -/
structure ClaimRange where
  start : Nat
  stop : Nat
deriving DecidableEq, Repr

/-- A validated claim. -/
structure Claim where
  id : String
  text : List Char
  range : ClaimRange
deriving DecidableEq, Repr

/-- A JavaScript number as the validator's range bookkeeping produces it:
an ordinary integer, or `NaN` — the result of
`foundIndex + claim.text.length` when `claim.text` is a non-string value
without a numeric `length` property (`foundIndex + undefined`). -/
inductive JsNum
  | int (n : Int)
  | nan
deriving DecidableEq, Repr

/-- The raw `text` field of an LLM claim record, as JavaScript sees it:
either a JSON string, or a *truthy non-string* JSON value (a non-zero
number, `true`, an array, an object) carrying its string coercion
`coerced` (what `originalText.indexOf(claim.text)` searches for) and
`len`, the value's `length` property when it has a numeric one (an
array's length; `none` for numbers, booleans and plain objects, whose
`.length` is `undefined`).  Falsy values of every type (missing, `null`,
`''`, `0`, `false`) are discarded identically by the source's
`!claim.text` check and are represented by `none` in `RawClaim` (or by
`str []`, the falsy empty string). -/
inductive RawText
  | str (s : List Char)
  | nonString (coerced : List Char) (len : Option Nat)
deriving DecidableEq, Repr

/-- A raw claim record as returned by the LLM, before validation: every
field may be missing or of the wrong type. -/
structure RawClaim where
  id : Option String
  text : Option RawText
  start : Option Int
  stop : Option Int

/-- The generated id `claim_<n>` used when the LLM supplied no (or a falsy)
claim id. -/
def defaultClaimId (n : Nat) : String :=
  "claim_" ++ toString n

/-- `claim.id || claim_<n>` (JavaScript falsy check: a missing or empty id
is replaced). -/
def claimIdFor (rid : Option String) (n : Nat) : String :=
  match rid with
  | some s => if s.isEmpty then defaultClaimId n else s
  | none => defaultClaimId n

/-- A claim record as the validator actually returns it to the caller:
the text is the raw JSON value (a string, or a non-string that slipped
through the falsy check) and the range end is a JavaScript number that
may be `NaN`. -/
structure ReturnedClaim where
  id : String
  text : RawText
  start : Nat
  stop : JsNum
deriving DecidableEq, Repr

/-- The `end = foundIndex + claim.text.length` computed by the `indexOf`
repair for a non-string text: an integer when the value has a numeric
`length` property (an array), `NaN` otherwise
(`foundIndex + undefined`). -/
def jsAddLength (j : Nat) (len : Option Nat) : JsNum :=
  match len with
  | some l => JsNum.int (j + l)
  | none => JsNum.nan

/-- Validation of one raw claim, returning the repaired
`(text, start, end)` triple, `ok none` when the claim is discarded
(`continue`), or `error` when validation *throws*.  Mirrors the per-claim
body of `validateClaimExtractionResult`:

* A falsy text (`none` or the empty string) or a non-number `start`/`end`
  is discarded by the field check.
* String text: bounds check with `indexOf` relocation, slice verification
  with `indexOf` and then fuzzy relocation.  (After a successful `indexOf`
  relocation the source re-runs the slice verification; that re-check can
  never fail for a string — see `indexOfSub_spec` — so it is elided.)
* Truthy *non-string* text: the field check `!claim.text` does not reject
  it.  Strict equality between the string slice and the non-string is
  always false, so both the bounds-invalid and the bounds-valid path run
  the `indexOf` repair on the value's string coercion; a hit sets
  `end = foundIndex + claim.text.length` — `NaN` unless the value is an
  array — and the claim is *pushed* (the re-run slice verification finds
  the same `indexOf` hit again and re-assigns the same range).  When
  `indexOf` misses on the bounds-valid path, the code reaches
  `findFuzzyMatch`, whose `searchText.toLowerCase()` throws a
  `TypeError` on a non-string. -/
def validateOne (originalText : List Char) (c : RawClaim) :
    Except Unit (Option (RawText × Nat × JsNum)) :=
  match c.text, c.start, c.stop with
  | some (RawText.str t), some s, some e =>
    if t = [] then .ok none
    else if s < 0 || e > (originalText.length : Int) || s ≥ e then
      match indexOfSub originalText t with
      | some j => .ok (some (RawText.str t, j, JsNum.int (j + t.length)))
      | none => .ok none
    else if jsSlice originalText s.toNat e.toNat = t then
      .ok (some (RawText.str t, s.toNat, JsNum.int e))
    else
      match indexOfSub originalText t with
      | some j => .ok (some (RawText.str t, j, JsNum.int (j + t.length)))
      | none =>
        match findFuzzyMatch originalText t with
        | some (fs, fe, ft) => .ok (some (RawText.str ft, fs, JsNum.int fe))
        | none => .ok none
  | some (RawText.nonString r len), some s, some e =>
    if s < 0 || e > (originalText.length : Int) || s ≥ e then
      match indexOfSub originalText r with
      | some j => .ok (some (RawText.nonString r len, j, jsAddLength j len))
      | none => .ok none
    else
      match indexOfSub originalText r with
      | some j => .ok (some (RawText.nonString r len, j, jsAddLength j len))
      | none => .error ()
  | _, _, _ => .ok none

/-- One step of the validation fold: append the repaired claim (with a
defaulted id), drop it, or propagate a thrown `TypeError`. -/
def validateStep (originalText : List Char) (validClaims : List ReturnedClaim)
    (c : RawClaim) : Except Unit (List ReturnedClaim) :=
  match validateOne originalText c with
  | .error _ => .error ()
  | .ok none => .ok validClaims
  | .ok (some (t, s, e)) =>
      .ok (validClaims ++ [⟨claimIdFor c.id (validClaims.length + 1), t, s, e⟩])

/-- `validateClaimExtractionResult`: validate/repair every raw claim in
order, discarding the irreparable ones; ids default to
`claim_<position>`.  An exception thrown mid-loop propagates to the
caller (`extractClaims` re-throws it as a parse failure). -/
def validateClaimExtractionResult (result : List RawClaim) (originalText : List Char) :
    Except Unit (List ReturnedClaim) :=
  result.foldlM (validateStep originalText) []

/-- JavaScript `s.slice(start, end)` with a JS-number `end`: `NaN`
converts to 0 (yielding the empty string for any positive `start`), and a
negative `end` counts from the end of the string. -/
def jsSliceNum (s : List Char) (start : Nat) (stop : JsNum) : List Char :=
  match stop with
  | JsNum.nan => jsSlice s start 0
  | JsNum.int e =>
      if e < 0 then jsSlice s start (s.length - (-e).toNat)
      else jsSlice s start e.toNat

/-- The invariant `text === strippedAnswer.slice(start, end)` claimed for
every returned claim, under JavaScript *strict* equality: a non-string
text is never strictly equal to the (string) slice. -/
def ReturnedClaim.sliceInvariant (originalText : List Char) (c : ReturnedClaim) : Prop :=
  match c.text with
  | RawText.str s => s = jsSliceNum originalText c.start c.stop
  | RawText.nonString _ _ => False

/-- A prefix of `text.drop i` is exactly the slice of `text` starting at
`i` of its own length. -/
theorem prefix_drop_eq_jsSlice {text t : List Char} {i : Nat}
    (h : t <+: text.drop i) : t = jsSlice text i (i + t.length) := by
  rw [jsSlice_eq_take_drop, Nat.add_sub_cancel_left]
  exact List.prefix_iff_eq_take.mp h

/-- Whatever `fuzzyTryAt` returns satisfies the slice equation: the
returned text is the slice of `text` at the returned range, and the range
has the text's length. -/
theorem fuzzyTryAt_spec {text searchText searchSubstring : List Char} {i a b : Nat}
    {t : List Char}
    (h : fuzzyTryAt text searchText searchSubstring i = some (a, b, t)) :
    t = jsSlice text a b ∧ b = a + t.length := by
  simp only [fuzzyTryAt] at h
  split at h
  · split at h
    · rw [Option.some.injEq, Prod.mk.injEq, Prod.mk.injEq] at h
      obtain ⟨rfl, rfl, rfl⟩ := h
      refine ⟨?_, rfl⟩
      apply prefix_drop_eq_jsSlice
      calc _ <+: jsSlice text i _ := List.takeWhile_prefix _
        _ = (text.drop i).take _ := jsSlice_eq_take_drop ..
        _ <+: text.drop i := List.take_prefix ..
    · exact absurd h (by simp)
  · exact absurd h (by simp)

/-- Whatever `findFuzzyMatch` returns satisfies the slice equation. -/
theorem findFuzzyMatch_spec {text searchText : List Char} {a b : Nat} {t : List Char}
    (h : findFuzzyMatch text searchText = some (a, b, t)) :
    t = jsSlice text a b ∧ b = a + t.length := by
  unfold findFuzzyMatch at h
  obtain ⟨k, _, h2⟩ := List.exists_of_findSome?_eq_some h
  simp only [] at h2
  split at h2
  · exact absurd h2 (by simp)
  · obtain ⟨i, _, h3⟩ := List.exists_of_findSome?_eq_some h2
    exact fuzzyTryAt_spec h3

theorem exceptBind_eq_ok {α β γ : Type} {x : Except γ α} {f : α → Except γ β} {b : β}
    (h : x >>= f = .ok b) : ∃ a, x = .ok a ∧ f a = .ok b := by
  cases x with
  | error e => exact absurd h (by simp [Bind.bind, Except.bind])
  | ok a => exact ⟨a, rfl, by simpa [Bind.bind, Except.bind] using h⟩

/-- On the *string*-typed path every repair of `validateOne`
re-establishes the slice equation, with a non-negative integer end. -/
theorem validateOne_str_spec {originalText : List Char} {c : RawClaim}
    {t : RawText} {st : Nat} {stop : JsNum}
    (h : validateOne originalText c = .ok (some (t, st, stop)))
    {s : List Char} (hs : t = RawText.str s) :
    ∃ e : Int, stop = JsNum.int e ∧ 0 ≤ e ∧ s = jsSlice originalText st e.toNat := by
  subst hs
  unfold validateOne at h
  split at h
  · -- string-typed text
    split at h
    · exact absurd h (by simp)
    · split at h
      · -- bounds invalid: indexOf relocation
        split at h
        · rename_i j hj
          rw [Except.ok.injEq, Option.some.injEq, Prod.mk.injEq, Prod.mk.injEq,
            RawText.str.injEq] at h
          obtain ⟨rfl, rfl, rfl⟩ := h
          exact ⟨_, rfl, by omega, by simpa using indexOfSub_spec hj⟩
        · exact absurd h (by simp)
      · rename_i hbounds
        split at h
        · -- accepted as-is
          rename_i hslice
          rw [Except.ok.injEq, Option.some.injEq, Prod.mk.injEq, Prod.mk.injEq,
            RawText.str.injEq] at h
          obtain ⟨rfl, rfl, rfl⟩ := h
          refine ⟨_, rfl, ?_, hslice.symm⟩
          simp only [Bool.or_eq_true, decide_eq_true_eq, not_or] at hbounds
          omega
        · split at h
          · -- indexOf relocation
            rename_i j hj
            rw [Except.ok.injEq, Option.some.injEq, Prod.mk.injEq, Prod.mk.injEq,
              RawText.str.injEq] at h
            obtain ⟨rfl, rfl, rfl⟩ := h
            exact ⟨_, rfl, by omega, by simpa using indexOfSub_spec hj⟩
          · split at h
            · -- fuzzy relocation
              rename_i fs fe ft hf
              rw [Except.ok.injEq, Option.some.injEq, Prod.mk.injEq, Prod.mk.injEq,
                RawText.str.injEq] at h
              obtain ⟨rfl, rfl, rfl⟩ := h
              exact ⟨_, rfl, by omega, by simpa using (findFuzzyMatch_spec hf).1⟩
            · exact absurd h (by simp)
  · -- non-string text: every returned text is non-string — contradiction
    split at h <;> split at h <;> simp_all
  · exact absurd h (by simp)

/-- The string-typed path of the validator is sound: in any claim list it
returns, every claim whose text is a JSON *string* satisfies the slice
equation — the C1 divergence is confined to truthy non-string texts. -/
theorem validated_string_claims_satisfy_slice_invariant
    (result : List RawClaim) (originalText : List Char) (claims : List ReturnedClaim)
    (hok : validateClaimExtractionResult result originalText = .ok claims) :
    ∀ c ∈ claims, ∀ s, c.text = RawText.str s →
      s = jsSliceNum originalText c.start c.stop := by
  suffices H : ∀ (rs : List RawClaim) (acc : List ReturnedClaim),
      (∀ c ∈ acc, ∀ s, c.text = RawText.str s →
        s = jsSliceNum originalText c.start c.stop) →
      ∀ cls, rs.foldlM (validateStep originalText) acc = .ok cls →
      ∀ c ∈ cls, ∀ s, c.text = RawText.str s →
        s = jsSliceNum originalText c.start c.stop by
    exact H result [] (by simp) claims hok
  intro rs
  induction rs with
  | nil =>
    intro acc hacc cls hok c hc
    simp only [List.foldlM_nil] at hok
    cases hok
    exact hacc c hc
  | cons r rs ih =>
    intro acc hacc cls hok c hc
    rw [List.foldlM_cons] at hok
    obtain ⟨acc', hstep, hok'⟩ := exceptBind_eq_ok hok
    · refine ih acc' ?_ cls hok' c hc
      intro c' hc' s hs
      unfold validateStep at hstep
      split at hstep
      · exact absurd hstep (by simp)
      · rw [Except.ok.injEq] at hstep
        subst hstep
        exact hacc c' hc' s hs
      · rename_i t st e hvo
        rw [Except.ok.injEq] at hstep
        subst hstep
        rcases List.mem_append.mp hc' with hold | hnew
        · exact hacc c' hold s hs
        · have hc'' : c' = ⟨claimIdFor r.id (acc.length + 1), t, st, e⟩ := by
            simpa using hnew
          subst hc''
          obtain ⟨eInt, hstop, hnonneg, hslice⟩ := validateOne_str_spec hvo hs
          simp only [hstop, jsSliceNum, if_neg (by omega : ¬(eInt < 0))]
          exact hslice

/-- **C1** (code bug): the field check `!claim.text` discards only
*falsy* values, so a truthy non-string text slips through instead of
being rejected as spec §4.5 step 1 requires.  For the raw claim
`{text: 42, start: 0, end: 2}` (a legal LLM JSON output) against the
stripped answer `421 is here`: the bounds are valid, the strict-equality
check `slice(0,2) === 42` is false (`"42" !== 42`), the `indexOf` repair
finds the string coercion `"42"` at index 0 and assigns
`end = 0 + (42).length = 0 + undefined = NaN`, and the validator returns
the claim `{text: 42, start: 0, end: NaN}` to the caller — whose
non-string text cannot be strictly equal to any slice (and
`slice(0, NaN)` is `""`), violating the claimed invariant
`text === strippedAnswer.slice(start, end)`. -/
theorem validator_returns_nonstring_claim_violating_slice_invariant :
    validateClaimExtractionResult
        [⟨none, some (RawText.nonString "42".toList none), some 0, some 2⟩]
        "421 is here".toList =
      .ok [⟨"claim_1", RawText.nonString "42".toList none, 0, JsNum.nan⟩] ∧
    ¬ ReturnedClaim.sliceInvariant "421 is here".toList
        ⟨"claim_1", RawText.nonString "42".toList none, 0, JsNum.nan⟩ ∧
    jsSliceNum "421 is here".toList 0 JsNum.nan = [] := by
  refine ⟨by rfl, ?_, by rfl⟩
  exact fun hinv => hinv

/-! ## Claim merge (`mergeClaims` in `claim-extractor.ts`)

Sort by start offset, then merge a claim into its predecessor when its
start is within 10 characters of the predecessor's end. -/

/-- The merge sort comparator `(a, b) => a.range.start - b.range.start`
(as a `≤` test; JavaScript `sort` is stable, as is `List.mergeSort`). -/
def claimStartLE (a b : Claim) : Bool :=
  decide (a.range.start ≤ b.range.start)

/-- `[...claims].sort((a, b) => a.range.start - b.range.start)`. -/
def sortClaims (claims : List Claim) : List Claim :=
  claims.mergeSort claimStartLE

/-- The merge pass over the sorted claims: `current` is merged with each
following claim that starts within 10 characters of its end (extending the
end to the max of the two and keeping the earlier claim's id and text),
and pushed when the next claim is farther away. -/
def mergeLoop (current : Claim) : List Claim → List Claim
  | [] => [current]
  | next :: rest =>
    if next.range.start ≤ current.range.stop + 10 then
      mergeLoop ⟨current.id, current.text,
        ⟨current.range.start, max current.range.stop next.range.stop⟩⟩ rest
    else
      current :: mergeLoop next rest

/-- `mergeClaims`: lists of at most one claim are returned as-is;
otherwise sort by start position and run the merge pass. -/
def mergeClaims (claims : List Claim) : List Claim :=
  if claims.length ≤ 1 then claims
  else
    match sortClaims claims with
    | [] => []
    | c :: rest => mergeLoop c rest

/-- Two claims are `Separated` when the second starts more than the fixed
10-character gap after the first ends — exactly the failure of the merge
condition. -/
def Separated (a b : Claim) : Prop :=
  a.range.stop + 10 < b.range.start

theorem mergeLoop_head_start :
    ∀ (l : List Claim) (c : Claim),
      ∃ d tl, mergeLoop c l = d :: tl ∧ d.range.start = c.range.start := by
  intro l
  induction l with
  | nil => exact fun c => ⟨c, [], rfl, rfl⟩
  | cons next rest ih =>
    intro c
    rw [mergeLoop]
    split
    · obtain ⟨d, tl, heq, hs⟩ := ih ⟨c.id, c.text,
        ⟨c.range.start, max c.range.stop next.range.stop⟩⟩
      exact ⟨d, tl, heq, hs⟩
    · exact ⟨c, mergeLoop next rest, rfl, rfl⟩

theorem mergeLoop_chain'_separated :
    ∀ (l : List Claim) (c : Claim), (mergeLoop c l).Chain' Separated := by
  intro l
  induction l with
  | nil => intro c; simp [mergeLoop]
  | cons next rest ih =>
    intro c
    rw [mergeLoop]
    split
    · exact ih _
    · rename_i hcond
      obtain ⟨d, tl, heq, hs⟩ := mergeLoop_head_start rest next
      rw [heq, List.chain'_cons]
      refine ⟨?_, heq ▸ ih next⟩
      show c.range.stop + 10 < d.range.start
      rw [hs]
      exact Nat.lt_of_not_le hcond

theorem mergeLoop_chain'_startLE :
    ∀ (l : List Claim) (c : Claim),
      (c :: l).Chain' (fun a b => claimStartLE a b = true) →
      (mergeLoop c l).Chain' (fun a b => claimStartLE a b = true) := by
  intro l
  induction l with
  | nil => intro c _; simp [mergeLoop]
  | cons next rest ih =>
    intro c hchain
    rw [List.chain'_cons] at hchain
    obtain ⟨hcn, hchain'⟩ := hchain
    rw [mergeLoop]
    split
    · refine ih _ ?_
      cases rest with
      | nil => simp
      | cons r rs =>
        rw [List.chain'_cons] at hchain' ⊢
        refine ⟨?_, hchain'.2⟩
        simp only [claimStartLE, decide_eq_true_eq] at *
        exact le_trans hcn hchain'.1
    · obtain ⟨d, tl, heq, hs⟩ := mergeLoop_head_start rest next
      rw [heq, List.chain'_cons]
      refine ⟨?_, heq ▸ ih next hchain'⟩
      simp only [claimStartLE, decide_eq_true_eq] at *
      rw [hs]
      exact hcn

theorem mergeLoop_of_separated :
    ∀ (l : List Claim) (c : Claim),
      (c :: l).Chain' Separated → mergeLoop c l = c :: l := by
  intro l
  induction l with
  | nil => intro c _; rfl
  | cons next rest ih =>
    intro c hchain
    rw [List.chain'_cons] at hchain
    rw [mergeLoop]
    split
    · rename_i hcond
      exact absurd hchain.1 (by simpa [Separated] using hcond)
    · rw [ih next hchain.2]

theorem claimStartLE_trans (a b c : Claim) :
    claimStartLE a b = true → claimStartLE b c = true → claimStartLE a c = true := by
  simp only [claimStartLE, decide_eq_true_eq]
  exact le_trans

theorem claimStartLE_total (a b : Claim) :
    (claimStartLE a b || claimStartLE b a) = true := by
  simp only [claimStartLE, Bool.or_eq_true, decide_eq_true_eq]
  exact Nat.le_total _ _

/-- **C7**: `mergeClaims` is idempotent — applying it to its own output
returns the same list, because the merged output is sorted by start
offset and consecutive output claims are separated by more than the
10-character gap, so a second pass merges nothing. -/
theorem mergeClaims_idempotent (claims : List Claim) :
    mergeClaims (mergeClaims claims) = mergeClaims claims := by
  by_cases h1 : claims.length ≤ 1
  · simp [mergeClaims, h1]
  · rcases hs : sortClaims claims with _ | ⟨c, rest⟩
    · have hlen : claims.length = 0 := by
        have := congrArg List.length hs
        simpa [sortClaims] using this
      omega
    · have hout : mergeClaims claims = mergeLoop c rest := by
        rw [mergeClaims, if_neg h1, hs]
      rw [hout]
      have hsorted_cr : (c :: rest).Chain' (fun a b => claimStartLE a b = true) := by
        have h := (List.sorted_mergeSort claimStartLE_trans claimStartLE_total claims).chain'
        rw [show claims.mergeSort claimStartLE = sortClaims claims from rfl, hs] at h
        exact h
      have houtSorted := mergeLoop_chain'_startLE rest c hsorted_cr
      have houtSep := mergeLoop_chain'_separated rest c
      by_cases h2 : (mergeLoop c rest).length ≤ 1
      · rw [mergeClaims, if_pos h2]
      · rw [mergeClaims, if_neg h2]
        have hself : sortClaims (mergeLoop c rest) = mergeLoop c rest := by
          apply List.mergeSort_of_sorted
          haveI : IsTrans Claim (fun a b => claimStartLE a b = true) := ⟨claimStartLE_trans⟩
          exact List.chain'_iff_pairwise.mp houtSorted
        rw [hself]
        obtain ⟨d, tl, heq, _⟩ := mergeLoop_head_start rest c
        rw [heq]
        show mergeLoop d tl = d :: tl
        exact mergeLoop_of_separated tl d (heq ▸ houtSep)

/-! ## Basis data model (`citation-mode/types.ts`) -/

/-- Confidence level of a basis (`low`/`medium`/`high`). -/
inductive ConfidenceLevel
  | low
  | medium
  | high
deriving DecidableEq, Repr

/-- A source position attached to a basis (optional excerpt markers and
cached excerpt).  The UI-only loading/error flags are not modelled. -/
structure SourcePosition where
  url : String
  title : String
  domain : String
  startText : Option String := none
  endText : Option String := none
  excerpt : Option String := none
deriving DecidableEq, Repr

/-- A Basis — the rich citation object built for one claim.  The `id`
field of the source (`generateBasisId()`, derived from the wall clock and
`Math.random()`) is environment-dependent and not part of the verified
data; the UI-only `isExpanded`/`isRemoved` flags are likewise omitted. -/
structure Basis where
  claimText : List Char
  claimRange : ClaimRange
  confidence : ConfidenceLevel
  reasoning : String
  sources : List SourcePosition
deriving DecidableEq, Repr

/-! ## Overall confidence scoring (`calculateOverallConfidence` in
`citation-mode/index.ts`) -/

/-- The `{high, medium, low}` distribution record. -/
structure ConfidenceDistribution where
  high : Nat
  medium : Nat
  low : Nat
deriving DecidableEq, Repr

/-- `distribution[basis.confidence]++`. -/
def bumpDistribution (d : ConfidenceDistribution) : ConfidenceLevel → ConfidenceDistribution
  | .high => { d with high := d.high + 1 }
  | .medium => { d with medium := d.medium + 1 }
  | .low => { d with low := d.low + 1 }

/-- JavaScript `Math.round(t / n)` for natural `t` and positive `n`:
round half toward positive infinity, i.e. `⌊(t/n) + 1/2⌋ = ⌊(2t+n)/(2n)⌋`.
(The IEEE-754 double quotient `t / n` is exact enough here for the
half-way analysis: the quotient is at distance at least `1/(2n)` from any
non-representable rounding boundary.) -/
def jsRoundDiv (t n : Nat) : Nat :=
  (2 * t + n) / (2 * n)

/-- `calculateOverallConfidence`: the empty basis list short-circuits to
score 0 and an all-zero distribution; otherwise the distribution is
counted in one pass and the weighted score (high=100, medium=60, low=20)
is rounded. -/
def calculateOverallConfidence (bases : List Basis) : Nat × ConfidenceDistribution :=
  if bases.length = 0 then (0, ⟨0, 0, 0⟩)
  else
    let distribution := bases.foldl (fun d b => bumpDistribution d b.confidence) ⟨0, 0, 0⟩
    let totalScore :=
      distribution.high * 100 + distribution.medium * 60 + distribution.low * 20
    (jsRoundDiv totalScore bases.length, distribution)

theorem foldl_bumpDistribution (bases : List Basis) (d : ConfidenceDistribution) :
    bases.foldl (fun d b => bumpDistribution d b.confidence) d =
      ⟨d.high + bases.countP (fun b => b.confidence == ConfidenceLevel.high),
       d.medium + bases.countP (fun b => b.confidence == ConfidenceLevel.medium),
       d.low + bases.countP (fun b => b.confidence == ConfidenceLevel.low)⟩ := by
  induction bases generalizing d with
  | nil => simp
  | cons b bs ih =>
    simp only [List.foldl_cons, ih, List.countP_cons]
    cases hb : b.confidence <;>
      simp [bumpDistribution, hb, ConfidenceDistribution.mk.injEq] <;> omega

/-- **C10**: `calculateOverallConfidence` applied to the empty basis list
returns score 0 and the all-zero distribution (no division by zero /
`NaN`); for every non-empty list it returns
`round((100*high + 60*medium + 20*low) / length)` together with the
counted distribution. -/
theorem calculateOverallConfidence_spec (bases : List Basis) (hne : bases ≠ []) :
    calculateOverallConfidence [] = (0, ⟨0, 0, 0⟩) ∧
    calculateOverallConfidence bases =
      (jsRoundDiv
        (100 * bases.countP (fun b => b.confidence == ConfidenceLevel.high) +
         60 * bases.countP (fun b => b.confidence == ConfidenceLevel.medium) +
         20 * bases.countP (fun b => b.confidence == ConfidenceLevel.low))
        bases.length,
       ⟨bases.countP (fun b => b.confidence == ConfidenceLevel.high),
        bases.countP (fun b => b.confidence == ConfidenceLevel.medium),
        bases.countP (fun b => b.confidence == ConfidenceLevel.low)⟩) := by
  refine ⟨by simp [calculateOverallConfidence], ?_⟩
  have hlen : bases.length ≠ 0 := Nat.pos_iff_ne_zero.mp (List.length_pos.mpr hne)
  rw [calculateOverallConfidence, if_neg hlen]
  simp only [foldl_bumpDistribution, Nat.zero_add]
  congr 1
  ring_nf

/-- Witness for C10: the spec's scenario D — distribution
`{high:2, medium:1, low:1}` scores `round(280/4) = 70`. -/
theorem calculateOverallConfidence_spec_witness :
    calculateOverallConfidence
        [⟨"a".toList, ⟨0, 1⟩, .high, "", []⟩,
         ⟨"b".toList, ⟨2, 3⟩, .high, "", []⟩,
         ⟨"c".toList, ⟨4, 5⟩, .medium, "", []⟩,
         ⟨"d".toList, ⟨6, 7⟩, .low, "", []⟩] =
      (70, ⟨2, 1, 1⟩) := by
  have h := calculateOverallConfidence_spec
    [⟨"a".toList, ⟨0, 1⟩, .high, "", []⟩,
     ⟨"b".toList, ⟨2, 3⟩, .high, "", []⟩,
     ⟨"c".toList, ⟨4, 5⟩, .medium, "", []⟩,
     ⟨"d".toList, ⟨6, 7⟩, .low, "", []⟩] (by simp)
  rw [h.2]
  decide

/-! ## Streaming tool-call delta accumulation (`handleStream` in
`openrouter/client.ts`)

Tool-call deltas carry a zero-based stream `index`; `handleStream` keeps a
`Map<number, ToolCall>` keyed by that index (insertion-ordered, as
JavaScript `Map` is), seeds a new entry from the first delta for an index
and appends argument fragments for later deltas.  The map is embedded as
an insertion-ordered association list. -/

/-- An accumulated tool call (one `toolCallsMap` entry).  Argument text is
kept as `List Char` since it is grown by concatenation. -/
structure AccToolCall where
  id : String
  name : String
  arguments : List Char
deriving DecidableEq, Repr

/-- One tool-call delta (`delta.tool_calls[k]`): every field may be
absent.  A JavaScript falsy field (missing, or the empty string for
`id`/`arguments`) is handled by the accessors below. -/
structure ToolCallDelta where
  index : Option Nat := none
  id : Option String := none
  name : Option String := none
  arguments : Option (List Char) := none
deriving DecidableEq, Repr

/-- `tc.index ?? 0`. -/
def deltaIndex (tc : ToolCallDelta) : Nat :=
  tc.index.getD 0

/-- `tc.id || `call_<index>`` (falsy check: empty string also defaults). -/
def deltaId (tc : ToolCallDelta) (index : Nat) : String :=
  match tc.id with
  | some s => if s.isEmpty then "call_" ++ toString index else s
  | none => "call_" ++ toString index

/-- `tc.function?.name || ''`. -/
def deltaName (tc : ToolCallDelta) : String :=
  (tc.name).getD ""

/-- `tc.function?.arguments || ''`. -/
def deltaArguments (tc : ToolCallDelta) : List Char :=
  (tc.arguments).getD []

/-- `toolCallsMap.get(index)` over the insertion-ordered entry list. -/
def lookupToolCall (index : Nat) : List (Nat × AccToolCall) → Option AccToolCall
  | [] => none
  | (k, v) :: rest => if k = index then some v else lookupToolCall index rest

/-- In-place update of the entry at `index` (JavaScript mutates the stored
object; insertion order is unchanged). -/
def mapUpdateAt : List (Nat × AccToolCall) → Nat → (AccToolCall → AccToolCall) →
    List (Nat × AccToolCall)
  | [], _, _ => []
  | (k, v) :: rest, index, f =>
      (if k = index then (k, f v) else (k, v)) :: mapUpdateAt rest index f

/-- Processing of one tool-call delta: an existing entry for the index has
the delta's argument fragment appended (guarded by the falsy test
`if (tc.function?.arguments)`); a new index appends a fresh entry seeded
with the delta's id, name and arguments. -/
def applyToolCallDelta (m : List (Nat × AccToolCall)) (tc : ToolCallDelta) :
    List (Nat × AccToolCall) :=
  match lookupToolCall (deltaIndex tc) m with
  | some _ =>
    match tc.arguments with
    | some s =>
        if s = [] then m
        else mapUpdateAt m (deltaIndex tc) (fun v => { v with arguments := v.arguments ++ s })
    | none => m
  | none =>
      m ++ [(deltaIndex tc, ⟨deltaId tc (deltaIndex tc), deltaName tc, deltaArguments tc⟩)]

/-- The whole stream's tool-call deltas, in arrival order, folded into
the per-index map. -/
def accumulateToolCallDeltas (deltas : List ToolCallDelta) : List (Nat × AccToolCall) :=
  deltas.foldl applyToolCallDelta []

/-- `Array.from(toolCallsMap.values())` — the accumulated tool calls in
insertion order. -/
def streamedToolCalls (deltas : List ToolCallDelta) : List AccToolCall :=
  (accumulateToolCallDeltas deltas).map Prod.snd

theorem lookupToolCall_append (i : Nat) (m₁ m₂ : List (Nat × AccToolCall)) :
    lookupToolCall i (m₁ ++ m₂) = (lookupToolCall i m₁).or (lookupToolCall i m₂) := by
  induction m₁ with
  | nil => simp [lookupToolCall]
  | cons p rest ih =>
    obtain ⟨k, v⟩ := p
    by_cases hk : k = i <;> simp [lookupToolCall, hk, ih]

theorem lookupToolCall_mapUpdateAt (i j : Nat) (m : List (Nat × AccToolCall))
    (f : AccToolCall → AccToolCall) :
    lookupToolCall i (mapUpdateAt m j f) =
      if i = j then (lookupToolCall i m).map f else lookupToolCall i m := by
  induction m with
  | nil => simp [lookupToolCall, mapUpdateAt]
  | cons p rest ih =>
    obtain ⟨k, v⟩ := p
    simp only [mapUpdateAt]
    by_cases hk : k = j
    · rw [if_pos hk]
      by_cases hki : k = i
      · have hij : i = j := by omega
        simp [lookupToolCall, hki, hij]
      · simp [lookupToolCall, hki, ih]
    · rw [if_neg hk]
      by_cases hki : k = i
      · have hij : ¬(i = j) := by omega
        simp [lookupToolCall, hki, hij]
      · simp [lookupToolCall, hki, ih]

theorem accumulateToolCallDeltas_append (ds : List ToolCallDelta) (d : ToolCallDelta) :
    accumulateToolCallDeltas (ds ++ [d]) =
      applyToolCallDelta (accumulateToolCallDeltas ds) d := by
  simp [accumulateToolCallDeltas, List.foldl_append]

/-- **C3**: tool-call deltas are accumulated per zero-based stream index —
for every delta list, the accumulated entry at index `i` exists iff some
delta carries that index, takes its id and name from the *first* such
delta, and its arguments are the concatenation, in arrival order, of all
argument fragments sent for that index.  In particular, deltas for index 0
arriving as name `search_web` with an argument fragment, then a second
argument fragment, accumulate to a single tool call with name `search_web`
and the concatenated JSON argument string. -/
theorem toolcall_deltas_accumulate_per_index :
    (∀ (deltas : List ToolCallDelta) (i : Nat),
      lookupToolCall i (accumulateToolCallDeltas deltas) =
        (deltas.find? (fun d => deltaIndex d == i)).map (fun d =>
          ⟨deltaId d i, deltaName d,
           ((deltas.filter (fun d => deltaIndex d == i)).map deltaArguments).flatten⟩)) ∧
    streamedToolCalls
        [⟨some 0, none, some "search_web", some "\x7b\"obj".toList⟩,
         ⟨some 0, none, none, some "ective\":\"x\"\x7d".toList⟩] =
      [⟨"call_0", "search_web", "\x7b\"objective\":\"x\"\x7d".toList⟩] := by
  constructor
  · intro deltas
    induction deltas using List.reverseRecOn with
    | nil => intro i; simp [accumulateToolCallDeltas, lookupToolCall]
    | append_singleton ds d ih =>
      intro i
      rw [accumulateToolCallDeltas_append]
      by_cases hdi : deltaIndex d = i
      · subst hdi
        cases hfound : lookupToolCall (deltaIndex d) (accumulateToolCallDeltas ds) with
        | some v =>
          have ihi := ih (deltaIndex d)
          rw [hfound] at ihi
          cases hfind : List.find? (fun x => deltaIndex x == deltaIndex d) ds with
          | none => rw [hfind] at ihi; exact absurd ihi (by simp)
          | some d₀ =>
            rw [hfind] at ihi
            have hv : v = ⟨deltaId d₀ (deltaIndex d), deltaName d₀,
                ((ds.filter (fun x => deltaIndex x == deltaIndex d)).map
                  deltaArguments).flatten⟩ := by
              simpa using ihi
            have hfind' : List.find? (fun x => deltaIndex x == deltaIndex d) (ds ++ [d]) =
                some d₀ := by
              rw [List.find?_append, hfind]; rfl
            have hfilter : List.filter (fun x => deltaIndex x == deltaIndex d) (ds ++ [d]) =
                List.filter (fun x => deltaIndex x == deltaIndex d) ds ++ [d] := by
              rw [List.filter_append]; simp
            rw [hfind', hfilter]
            simp only [applyToolCallDelta, hfound]
            cases hargs : d.arguments with
            | none =>
              dsimp only
              rw [hfound, hv]
              simp [deltaArguments, hargs]
            | some s =>
              by_cases hs : s = []
              · subst hs
                dsimp only
                rw [if_pos rfl, hfound, hv]
                simp [deltaArguments, hargs]
              · dsimp only
                rw [if_neg hs, lookupToolCall_mapUpdateAt, if_pos rfl, hfound, hv]
                simp [deltaArguments, hargs]
        | none =>
          have ihi := ih (deltaIndex d)
          rw [hfound] at ihi
          cases hfind : List.find? (fun x => deltaIndex x == deltaIndex d) ds with
          | some d₀ => rw [hfind] at ihi; exact absurd ihi (by simp)
          | none =>
            simp only [applyToolCallDelta, hfound]
            have hfilter : List.filter (fun x => deltaIndex x == deltaIndex d) ds = [] :=
              List.filter_eq_nil_iff.mpr (List.find?_eq_none.mp hfind)
            have hfind' : List.find? (fun x => deltaIndex x == deltaIndex d) (ds ++ [d]) =
                some d := by
              rw [List.find?_append, hfind]
              simp
            rw [hfind', List.filter_append, hfilter, lookupToolCall_append, hfound]
            simp [lookupToolCall]
      · have hdi' : ¬(i = deltaIndex d) := fun h => hdi h.symm
        have hpred : (deltaIndex d == i) = false := by simp [hdi]
        have hfind' : List.find? (fun x => deltaIndex x == i) (ds ++ [d]) =
            List.find? (fun x => deltaIndex x == i) ds := by
          rw [List.find?_append]
          cases hfind : List.find? (fun x => deltaIndex x == i) ds <;>
            simp [List.find?, hpred]
        have hfilter : List.filter (fun x => deltaIndex x == i) (ds ++ [d]) =
            List.filter (fun x => deltaIndex x == i) ds := by
          rw [List.filter_append]; simp [hpred]
        rw [hfind', hfilter]
        simp only [applyToolCallDelta]
        cases hfound : lookupToolCall (deltaIndex d) (accumulateToolCallDeltas ds) with
        | some v =>
          cases hargs : d.arguments with
          | none => exact ih i
          | some s =>
            by_cases hs : s = []
            · subst hs
              exact ih i
            · dsimp only
              rw [if_neg hs, lookupToolCall_mapUpdateAt, if_neg hdi']
              exact ih i
        | none =>
          dsimp only
          rw [lookupToolCall_append]
          have : lookupToolCall i
              [(deltaIndex d, ⟨deltaId d (deltaIndex d), deltaName d, deltaArguments d⟩)] =
              none := by
            simp [lookupToolCall, hdi]
          rw [this, Option.or_none]
          exact ih i
  · decide

/-! ## Basis builder (`basis-builder.ts`)

`buildBasesForClaims` processes claims in batches of 5.  Each batch first
attempts one batch LLM call (`buildBasisBatch`); on failure it falls back
to one LLM call per claim (`buildBasisForClaim`), and when that also
fails it synthesizes a fallback basis (`createFallbackBasis`).  The
outcomes of the remote LLM calls are an input of the embedding
(`BasisBuildEnv`). -/

/-- A source discovered during research, as handed to the basis
builder. -/
structure SourceInfo where
  url : String
  title : String
  excerpt : Option String := none
deriving DecidableEq, Repr

/-- Hostname terminators for the URL model below. -/
def hostEnd (c : Char) : Bool :=
  c = '/' || c = ':' || c = '?' || c = '#'

/-- A leading `www.` is stripped from the hostname
(`hostname.replace(/^www\./, '')`). -/
def stripWww (host : List Char) : List Char :=
  if ("www.".toList).isPrefixOf host then host.drop 4 else host

/-- `extractDomain`: `new URL(url).hostname` with a leading `www.`
stripped, or the raw string when URL parsing fails.  The WHATWG `URL`
parser is a platform builtin, not repository code; it is modelled here
for `http(s)` URLs: the hostname is the text after `://` up to the next
`/`, `:`, `?` or `#`, and parsing fails (returning the input) when no
`http(s)` scheme separator is present. -/
def extractDomain (url : String) : String :=
  let cs := url.toList
  if ("http://".toList).isPrefixOf cs then
    String.mk (stripWww ((cs.drop 7).takeWhile (fun c => !(hostEnd c))))
  else if ("https://".toList).isPrefixOf cs then
    String.mk (stripWww ((cs.drop 8).takeWhile (fun c => !(hostEnd c))))
  else url

/-- `validateConfidence`: any value outside the three recognized levels is
coerced to `low`. -/
def validateConfidence (confidence : Option String) : ConfidenceLevel :=
  match confidence with
  | some "high" => ConfidenceLevel.high
  | some "medium" => ConfidenceLevel.medium
  | some "low" => ConfidenceLevel.low
  | _ => ConfidenceLevel.low

/-- JavaScript `a || b` for an optional/falsy string `a`. -/
def jsOrString (a : Option String) (b : String) : String :=
  match a with
  | some s => if s.isEmpty then b else s
  | none => b

/-- A source entry of an LLM analysis result (`url`, `title`, and the
approximate excerpt markers); every field may be missing. -/
structure RawBasisSource where
  url : Option String := none
  title : Option String := none
  startText : Option String := none
  endText : Option String := none
deriving DecidableEq, Repr

/-- The parsed result of one single-claim basis LLM call
(`BasisBuildingResult`). -/
structure BasisBuildingResult where
  confidence : Option String := none
  reasoning : Option String := none
  sources : Option (List RawBasisSource) := none
deriving DecidableEq, Repr

/-- One entry of a batch analysis response (`parsed.analyses[k]`). -/
structure RawAnalysis where
  claimId : String
  confidence : Option String := none
  reasoning : Option String := none
  supportingSources : Option (List RawBasisSource) := none
deriving DecidableEq, Repr

/-- Source matching in `createBasisFromResult`: an available source
matches on equal url *or* equal title. -/
def rawSourceMatches (a : SourceInfo) (src : RawBasisSource) : Bool :=
  (match src.url with | some u => a.url == u | none => false) ||
  (match src.title with | some t => a.title == t | none => false)

/-- The `SourcePosition` list of `createBasisFromResult`: map each result
source (title defaulted from the matched available source or the domain,
excerpt copied from the matched source), then drop entries without a
URL. -/
def basisSourcePositions (availableSources : List SourceInfo)
    (rawSources : List RawBasisSource) : List SourcePosition :=
  (rawSources.map (fun src =>
    let matchedSource := availableSources.find? (fun a => rawSourceMatches a src)
    let url := (src.url).getD ""
    { url := url
      title := jsOrString src.title
        (jsOrString (matchedSource.map (fun s => s.title)) (extractDomain url))
      domain := extractDomain url
      startText := src.startText
      endText := src.endText
      excerpt := matchedSource.bind (fun s => s.excerpt) })).filter
    (fun s => !s.url.isEmpty)

/-- `createBasisFromResult`. -/
def createBasisFromResult (claim : Claim) (result : BasisBuildingResult)
    (availableSources : List SourceInfo) : Basis :=
  { claimText := claim.text
    claimRange := claim.range
    confidence := validateConfidence result.confidence
    reasoning := jsOrString result.reasoning "No reasoning provided"
    sources := basisSourcePositions availableSources ((result.sources).getD []) }

/-- `createFallbackBasis`: confidence forced to `low`, the fixed
"manual review recommended" reasoning, and at most the first available
source. -/
def createFallbackBasis (claim : Claim) (sources : List SourceInfo) : Basis :=
  { claimText := claim.text
    claimRange := claim.range
    confidence := ConfidenceLevel.low
    reasoning := "Unable to analyze citation quality. Manual review recommended."
    sources := (sources.take 1).map (fun s =>
      { url := s.url, title := s.title, domain := extractDomain s.url,
        excerpt := s.excerpt }) }

/-- The `SourcePosition` list built in `buildBasisBatch` (matching is by
url only; no excerpt is copied). -/
def batchSourcePositions (sources : List SourceInfo)
    (raws : List RawBasisSource) : List SourcePosition :=
  (raws.map (fun s =>
    let matchedSource := sources.find?
      (fun src => match s.url with | some u => src.url == u | none => false)
    let url := (s.url).getD ""
    { url := url
      title := jsOrString (matchedSource.map (fun m => m.title)) (extractDomain url)
      domain := extractDomain url
      startText := s.startText
      endText := s.endText })).filter (fun s => !s.url.isEmpty)

/-- Outcome of one batch LLM call: `failure` covers every throwing path
(HTTP error, missing content, JSON parse error, missing `analyses`
array); `success` carries the parsed `analyses`. -/
inductive BatchCallOutcome
  | failure
  | success (analyses : List RawAnalysis)
deriving DecidableEq, Repr

/-- Outcome of one single-claim LLM call: `failure` is a throwing path
(HTTP error or missing content); `parseFailure` is a JSON parse error
(handled inside `buildBasisForClaim` by returning the fallback basis);
`success` carries the parsed result. -/
inductive IndividualCallOutcome
  | failure
  | parseFailure
  | success (result : BasisBuildingResult)
deriving DecidableEq, Repr

/-- The remote-call environment of one `buildBasesForClaims` run. -/
structure BasisBuildEnv where
  batchCall : List Claim → BatchCallOutcome
  individualCall : Claim → IndividualCallOutcome

/-- One analysis entry of the batch result is mapped back to its claim by
id (`claims.find(c => c.id === analysis.claimId)`); entries with no
matching claim are skipped. -/
def batchStep (claims : List Claim) (sources : List SourceInfo)
    (bases : List Basis) (analysis : RawAnalysis) : List Basis :=
  match claims.find? (fun c => c.id == analysis.claimId) with
  | none => bases
  | some claim =>
      bases ++ [{ claimText := claim.text
                  claimRange := claim.range
                  confidence := validateConfidence analysis.confidence
                  reasoning := jsOrString analysis.reasoning "No reasoning provided"
                  sources := batchSourcePositions sources
                    ((analysis.supportingSources).getD []) }]

/-- `buildBasisBatch`: `none` on any throwing path, otherwise the bases
created from the response's analyses in response order. -/
def buildBasisBatch (claims : List Claim) (sources : List SourceInfo)
    (outcome : BatchCallOutcome) : Option (List Basis) :=
  match outcome with
  | .failure => none
  | .success analyses => some (analyses.foldl (batchStep claims sources) [])

/-- `buildBasisForClaim`: throws (`none`) on HTTP/content failure, falls
back internally on a parse failure, and otherwise builds the basis from
the parsed result. -/
def buildBasisForClaim (claim : Claim) (sources : List SourceInfo)
    (outcome : IndividualCallOutcome) : Option Basis :=
  match outcome with
  | .failure => none
  | .parseFailure => some (createFallbackBasis claim sources)
  | .success r => some (createBasisFromResult claim r sources)

/-- One iteration of the batch loop: try the batch call; on failure fall
back to per-claim calls, synthesizing a fallback basis when the
individual call also fails. -/
def processBatch (env : BasisBuildEnv) (sources : List SourceInfo)
    (batch : List Claim) : List Basis :=
  match buildBasisBatch batch sources (env.batchCall batch) with
  | some batchBases => batchBases
  | none =>
      batch.map (fun claim =>
        match buildBasisForClaim claim sources (env.individualCall claim) with
        | some b => b
        | none => createFallbackBasis claim sources)

/-- `buildBasesForClaims`: the loop
`for (let i = 0; i < claims.length; i += 5)` processes
`claims.slice(i, i+5)` per iteration; embedded as structural recursion
peeling five claims at a time (a trailing batch of fewer than five is the
final iteration). -/
def buildBasesForClaims (env : BasisBuildEnv) (sources : List SourceInfo) :
    List Claim → List Basis
  | [] => []
  | a :: b :: c :: d :: e :: rest =>
      processBatch env sources [a, b, c, d, e] ++ buildBasesForClaims env sources rest
  | claims => processBatch env sources claims

theorem batchFoldl_length (claims : List Claim) (sources : List SourceInfo) :
    ∀ (analyses : List RawAnalysis) (acc : List Basis),
      (∀ a ∈ analyses, (claims.find? (fun c => c.id == a.claimId)).isSome) →
      (analyses.foldl (batchStep claims sources) acc).length =
        acc.length + analyses.length := by
  intro analyses
  induction analyses with
  | nil => intro acc _; simp
  | cons a rest ih =>
    intro acc h
    have ha := h a (by simp)
    simp only [List.foldl_cons]
    rw [ih _ (fun x hx => h x (by simp [hx]))]
    cases hfind : claims.find? (fun c => c.id == a.claimId) with
    | none => rw [hfind] at ha; simp at ha
    | some claim =>
      simp only [batchStep, hfind]
      simp
      omega

theorem processBatch_length (env : BasisBuildEnv) (sources : List SourceInfo)
    (batch : List Claim)
    (hbatch : ∀ analyses, env.batchCall batch = .success analyses →
        analyses.length = batch.length ∧
        ∀ a ∈ analyses, (batch.find? (fun c => c.id == a.claimId)).isSome) :
    (processBatch env sources batch).length = batch.length := by
  rw [processBatch]
  cases hc : env.batchCall batch with
  | failure => simp [buildBasisBatch]
  | success analyses =>
    obtain ⟨hlen, hfind⟩ := hbatch analyses hc
    simp only [buildBasisBatch]
    rw [batchFoldl_length batch sources analyses [] hfind]
    simpa using hlen

/-- Counterexample to C2 as stated: a *successful* batch call whose
response contains no analyses yields no basis at all — with one claim and
a batch environment answering `success []`, `buildBasesForClaims` returns
0 bases, not one per claim. -/
theorem buildBasesForClaims_zero_bases_on_empty_analyses :
    (buildBasesForClaims ⟨fun _ => .success [], fun _ => .failure⟩ []
        [⟨"claim_1", "t".toList, ⟨0, 1⟩⟩]).length ≠
      ([⟨"claim_1", "t".toList, ⟨0, 1⟩⟩] : List Claim).length := by
  decide

/-- **C2** (amended): provided every *successful* batch LLM response
contains exactly one analysis per claim of its batch (same count, each
analysis carrying the id of a claim in the batch), `buildBasesForClaims`
produces exactly one basis per claim: claims are processed in batches of
5; a failed batch call falls back to one LLM call per claim, and a failed
individual call synthesizes the fallback basis — so in particular 7
claims yield exactly 7 bases, batched as [5, 2], even when the first
batch call throws. -/
theorem buildBasesForClaims_one_basis_per_claim
    (env : BasisBuildEnv) (sources : List SourceInfo) (claims : List Claim)
    (hbatch : ∀ batch analyses, env.batchCall batch = .success analyses →
        analyses.length = batch.length ∧
        ∀ a ∈ analyses, (batch.find? (fun c => c.id == a.claimId)).isSome) :
    (buildBasesForClaims env sources claims).length = claims.length := by
  have key : ∀ (n : Nat) (cs : List Claim), cs.length ≤ n →
      (buildBasesForClaims env sources cs).length = cs.length := by
    intro n
    induction n with
    | zero =>
      intro cs h
      have : cs = [] := List.eq_nil_of_length_eq_zero (by omega)
      subst this
      rfl
    | succ n ih =>
      intro cs hle
      match cs with
      | [] => rfl
      | [a] =>
        show (processBatch env sources [a]).length = 1
        rw [processBatch_length env sources [a] (fun an hc => hbatch [a] an hc)]
        rfl
      | [a, b] =>
        show (processBatch env sources [a, b]).length = 2
        rw [processBatch_length env sources [a, b] (fun an hc => hbatch [a, b] an hc)]
        rfl
      | [a, b, c] =>
        show (processBatch env sources [a, b, c]).length = 3
        rw [processBatch_length env sources [a, b, c] (fun an hc => hbatch [a, b, c] an hc)]
        rfl
      | [a, b, c, d] =>
        show (processBatch env sources [a, b, c, d]).length = 4
        rw [processBatch_length env sources [a, b, c, d] (fun an hc => hbatch [a, b, c, d] an hc)]
        rfl
      | a :: b :: c :: d :: e :: rest =>
        show (processBatch env sources [a, b, c, d, e] ++
            buildBasesForClaims env sources rest).length = _
        rw [List.length_append,
          processBatch_length env sources [a, b, c, d, e]
            (fun an hc => hbatch [a, b, c, d, e] an hc),
          ih rest (by simp at hle ⊢; omega)]
        simp
        omega
  exact key claims.length claims le_rfl

/-- The demonstration environment for the C2 witness: the first batch (of
five) throws, every other batch call succeeds with exactly one analysis
per claim, and every individual call throws (forcing the fallback
basis). -/
def demoBasisEnv : BasisBuildEnv where
  batchCall cs :=
    if cs.length = 5 then .failure
    else .success (cs.map (fun c => { claimId := c.id }))
  individualCall _ := .failure

/-- The seven demonstration claims of the C2 witness. -/
def demoClaims : List Claim :=
  (List.range 7).map (fun k =>
    ⟨"claim_" ++ toString (k + 1), "t".toList, ⟨12 * k, 12 * k + 10⟩⟩)

/-- Witness for C2: seven claims, first batch call throwing (so its five
claims fall back to five individual attempts, each synthesizing a
fallback basis) and the second batch (of two) succeeding, produce exactly
seven bases. -/
theorem buildBasesForClaims_one_basis_per_claim_witness :
    (buildBasesForClaims demoBasisEnv [] demoClaims).length = 7 := by
  have h := buildBasesForClaims_one_basis_per_claim demoBasisEnv [] demoClaims
    (by
      intro batch analyses hc
      rw [demoBasisEnv] at hc
      simp only at hc
      split at hc
      · exact absurd hc (by simp)
      · have han : analyses = batch.map (fun c => { claimId := c.id }) := by
          have := hc
          simp only [BatchCallOutcome.success.injEq] at this
          exact this.symm
        subst han
        refine ⟨by simp, ?_⟩
        intro a ha
        simp only [List.mem_map] at ha
        obtain ⟨c, hcmem, rfl⟩ := ha
        rw [List.find?_isSome]
        exact ⟨c, hcmem, by simp⟩)
  rw [h]
  rfl

/-! ## Research orchestrator (`research-agent.ts` / `unnamed/part_008`)

The tool-calling loop `while (iteration < MAX_ITERATIONS)` issues one
non-streaming chat request per iteration (`tools: RESEARCH_TOOLS`,
`tool_choice: 'auto'`, `stream: false`) and breaks when the finish reason
is not `tool_calls` or the turn carries no tool calls.  The repository
carries two revisions of the agent; the current one (`unnamed/part_008`,
with the token-usage accumulation described in the spec) fixes
`MAX_ITERATIONS = 50`. -/

def MAX_ITERATIONS : Nat := 50

/-- Lifecycle status of a tool call as shown in the UI. -/
inductive ToolCallStatus
  | executing
  | complete
  | error
deriving DecidableEq, Repr

/-- A model-requested tool call. -/
structure ToolCall where
  id : String
  name : String
  arguments : String
  status : Option ToolCallStatus := none
deriving DecidableEq, Repr

/-- The part of one non-streaming chat response the loop's exit test
reads: `choices[0].finish_reason` and `choices[0].message.tool_calls`.
`some []` is a truthy empty array in JavaScript and does *not* break the
loop; `none` is an absent field, which does. -/
structure TurnResponse where
  finishReason : String
  toolCalls : Option (List ToolCall)
deriving DecidableEq, Repr

/-- The request parameters of one chat call issued by the loop. -/
structure ChatRequest where
  stream : Bool
  toolChoice : String
  withTools : Bool
deriving DecidableEq, Repr

/-- Every gathering-loop request is non-streaming, with the tool schema
and `tool_choice: 'auto'`. -/
def gatherRequest : ChatRequest :=
  { stream := false, toolChoice := "auto", withTools := true }

/-- The gathering loop, returning the chat requests it issues: `env k` is
the provider's response to the `k`-th request (1-based, as `iteration` is
incremented before the call).  The loop breaks after a turn whose finish
reason is not `tool_calls` or that carries no tool-call array, and stops
unconditionally at the iteration ceiling. -/
def gatherLoop (env : Nat → TurnResponse) (iteration : Nat) : List ChatRequest :=
  if iteration < MAX_ITERATIONS then
    if (env (iteration + 1)).finishReason ≠ "tool_calls" ∨
        (env (iteration + 1)).toolCalls = none then
      [gatherRequest]
    else
      gatherRequest :: gatherLoop env (iteration + 1)
  else []
termination_by MAX_ITERATIONS - iteration

theorem gatherLoop_length_le (env : Nat → TurnResponse) (iteration : Nat) :
    (gatherLoop env iteration).length ≤ MAX_ITERATIONS - iteration := by
  have key : ∀ (fuel it : Nat), MAX_ITERATIONS - it ≤ fuel →
      (gatherLoop env it).length ≤ MAX_ITERATIONS - it := by
    intro fuel
    induction fuel with
    | zero =>
      intro it h
      rw [gatherLoop]
      split
      · rename_i hlt
        exact absurd h (by omega)
      · simp
    | succ n ih =>
      intro it h
      rw [gatherLoop]
      split
      · rename_i hlt
        split
        · simp
          omega
        · have := ih (it + 1) (by omega)
          simp only [List.length_cons]
          omega
      · simp
  exact key MAX_ITERATIONS iteration (by omega)

theorem gatherLoop_length_eq_of_always_tools (env : Nat → TurnResponse)
    (halways : ∀ k, (env k).finishReason = "tool_calls" ∧ (env k).toolCalls ≠ none) :
    ∀ (iteration : Nat), (gatherLoop env iteration).length = MAX_ITERATIONS - iteration := by
  have key : ∀ (fuel it : Nat), MAX_ITERATIONS - it ≤ fuel →
      (gatherLoop env it).length = MAX_ITERATIONS - it := by
    intro fuel
    induction fuel with
    | zero =>
      intro it h
      rw [gatherLoop]
      split
      · rename_i hlt
        exact absurd h (by omega)
      · rename_i hge
        simp only [List.length_nil]
        omega
    | succ n ih =>
      intro it h
      rw [gatherLoop]
      split
      · rename_i hlt
        split
        · rename_i hbreak
          obtain ⟨h1, h2⟩ := halways (it + 1)
          rcases hbreak with hb | hb
          · exact absurd h1 hb
          · exact absurd hb h2
        · have := ih (it + 1) (by omega)
          simp only [List.length_cons]
          omega
      · rename_i hge
        simp only [List.length_nil]
        omega
  intro iteration
  exact key MAX_ITERATIONS iteration (by omega)

theorem gatherLoop_requests (env : Nat → TurnResponse) :
    ∀ (iteration : Nat), ∀ r ∈ gatherLoop env iteration, r = gatherRequest := by
  have key : ∀ (fuel it : Nat), MAX_ITERATIONS - it ≤ fuel →
      ∀ r ∈ gatherLoop env it, r = gatherRequest := by
    intro fuel
    induction fuel with
    | zero =>
      intro it h r hr
      rw [gatherLoop] at hr
      split at hr
      · rename_i hlt
        exact absurd h (by omega)
      · simp at hr
    | succ n ih =>
      intro it h r hr
      rw [gatherLoop] at hr
      split at hr
      · rename_i hlt
        split at hr
        · simpa using hr
        · rcases List.mem_cons.mp hr with rfl | hr'
          · rfl
          · exact ih (it + 1) (by omega) r hr'
      · simp at hr
  intro iteration
  exact key MAX_ITERATIONS iteration (by omega)

/-- **C4**: for every provider behaviour, the orchestrator's tool-calling
loop issues at most `MAX_ITERATIONS = 50` chat requests before moving on
to finalization — each a non-streaming request with the tool schema and
`tool_choice = "auto"` — and the ceiling is exact: when every turn
requests tool calls, the loop runs all 50 iterations and still
terminates. -/
theorem research_loop_bounded_by_50 (env : Nat → TurnResponse) :
    (gatherLoop env 0).length ≤ 50 ∧
    MAX_ITERATIONS = 50 ∧
    (∀ r ∈ gatherLoop env 0, r = { stream := false, toolChoice := "auto", withTools := true }) ∧
    ((∀ k, (env k).finishReason = "tool_calls" ∧ (env k).toolCalls ≠ none) →
      (gatherLoop env 0).length = 50) := by
  refine ⟨?_, rfl, gatherLoop_requests env 0, ?_⟩
  · simpa using gatherLoop_length_le env 0
  · intro halways
    simpa using gatherLoop_length_eq_of_always_tools env halways 0

/-- Witness for C4: under a provider that always requests one more tool
call, the loop issues exactly 50 requests. -/
theorem research_loop_bounded_by_50_witness :
    (gatherLoop (fun _ => ⟨"tool_calls", some [⟨"c1", "search_web", "", none⟩]⟩) 0).length =
      50 :=
  (research_loop_bounded_by_50 (fun _ => ⟨"tool_calls", some [⟨"c1", "search_web", "", none⟩]⟩)).2.2.2
    (fun k => ⟨rfl, by simp⟩)

/-! ## Tool dispatcher (`executeToolCall`), `extract_url` branch

After the provider call returns, `parsedArgs.urls.forEach` reports every
requested URL to the source sink as a discovered Source of type
`extract` — whether or not that URL has a result entry.  When the
provider call itself throws, `executeToolCall` rethrows. -/

/-- Discovery type of a source. -/
inductive SourceType
  | search
  | extract
deriving DecidableEq, Repr

/-- A discovered source as reported to the sink. -/
structure Source where
  url : String
  title : String
  type : SourceType
  timestamp : Nat
deriving DecidableEq, Repr

/-- One entry of the extract provider's response. -/
structure ExtractResultEntry where
  url : String
  content : String
  excerpts : Option (List String) := none
deriving DecidableEq, Repr

/-- The extract provider's response (`{results: [...]}`). -/
structure ExtractResponse where
  results : List ExtractResultEntry
deriving DecidableEq, Repr

/-- The `extract_url` branch of `executeToolCall`: on provider success,
report one Source of type `extract` per *requested* URL (title: the url
of the result entry at the same position, or the requested url), and
return per-URL content (excerpts joined with a blank line when present,
else the full content).  `Except.error` models the provider call
throwing; `now` stands for `Date.now()`. -/
def executeExtractUrl (urls : List String) (now : Nat)
    (outcome : Except Unit ExtractResponse) :
    Except Unit (List Source × List (String × String)) :=
  match outcome with
  | .error _ => .error ()
  | .ok result =>
      .ok ((urls.enum).map (fun p =>
            { url := p.2
              title := jsOrString ((result.results[p.1]?).map (fun r => r.url)) p.2
              type := SourceType.extract
              timestamp := now }),
           result.results.map (fun r =>
            (r.url, match r.excerpts with
                    | some ex => String.intercalate "\n\n" ex
                    | none => r.content)))

/-- **C6**: for every `extract_url` tool call whose provider request
returns (with any per-URL results, missing entries included), each
requested URL becomes exactly one discovered Source of type `extract`,
in request order — so two requested URLs yield exactly two `extract`
Sources even when one URL's extraction failed. -/
theorem extract_url_discovers_source_per_url
    (urls : List String) (now : Nat) (result : ExtractResponse)
    {sources : List Source} {returned : List (String × String)}
    (h : executeExtractUrl urls now (.ok result) = .ok (sources, returned)) :
    sources.length = urls.length ∧
    (∀ s ∈ sources, s.type = SourceType.extract) ∧
    sources.map (fun s => s.url) = urls := by
  simp only [executeExtractUrl, Except.ok.injEq, Prod.mk.injEq] at h
  obtain ⟨hs, _⟩ := h
  subst hs
  refine ⟨by simp [List.enum_length], ?_, ?_⟩
  · intro s hs
    simp only [List.mem_map] at hs
    obtain ⟨p, _, rfl⟩ := hs
    rfl
  · rw [List.map_map]
    exact List.enum_map_snd urls

/-- Witness for C6: the spec's scenario B — `extract_url` with two URLs
where only the first has a result entry still reports exactly two
`extract` Sources, one per requested URL. -/
theorem extract_url_discovers_source_per_url_witness :
    ([⟨"https://a.com", "https://a.com", SourceType.extract, 0⟩,
      ⟨"https://b.com", "https://b.com", SourceType.extract, 0⟩] : List Source).length =
        (["https://a.com", "https://b.com"] : List String).length ∧
    (∀ s ∈ ([⟨"https://a.com", "https://a.com", SourceType.extract, 0⟩,
      ⟨"https://b.com", "https://b.com", SourceType.extract, 0⟩] : List Source),
        s.type = SourceType.extract) ∧
    ([⟨"https://a.com", "https://a.com", SourceType.extract, 0⟩,
      ⟨"https://b.com", "https://b.com", SourceType.extract, 0⟩] : List Source).map
        (fun s => s.url) = ["https://a.com", "https://b.com"] :=
  @extract_url_discovers_source_per_url ["https://a.com", "https://b.com"] 0
    ⟨[⟨"https://a.com", "specs content", none⟩]⟩
    [⟨"https://a.com", "https://a.com", SourceType.extract, 0⟩,
     ⟨"https://b.com", "https://b.com", SourceType.extract, 0⟩]
    [("https://a.com", "specs content")]
    (by rfl)

/-! ## Citation stripper (`strip-citations.ts`)

`stripCitations` scans the answer for markdown links
`\[([^\]]+)\]\(([^)]+)\)` whose URL parses as `http(s)`, records an
`ExtractedCitation` per hit (with the match position in the *original*
text), and rewrites the text left to right, tracking the cumulative
removed length.  `stripCitationsKeepText` replaces each link by its
visible text instead of deleting it.  (The `positionMap` side table of
the source carries no information beyond `position - cumulativeOffset`
and is not modelled.) -/

/-- An extracted `[title](url)` citation. -/
structure ExtractedCitation where
  index : Nat
  url : List Char
  title : List Char
  fullMatch : List Char
  position : Nat
deriving DecidableEq, Repr

/-- A raw regex hit, before the URL filter. -/
structure MdLinkMatch where
  position : Nat
  fullMatch : List Char
  title : List Char
  url : List Char
deriving DecidableEq, Repr

/-- One attempt of the markdown-link regex
`\[([^\]]+)\]\(([^)]+)\)` anchored at the head of `s`: a `[`, a
non-empty run of non-`]` characters, `](`, a non-empty run of non-`)`
characters, `)`.  (The character classes exclude the closing bracket, so
the regex is deterministic: each capture runs to the first closing
bracket.)  Returns `(fullMatch, linkText, url)`. -/
def matchLinkAt (s : List Char) : Option (List Char × List Char × List Char) :=
  match s with
  | '[' :: rest =>
    let lt := rest.takeWhile (fun c => !(c = ']'))
    if lt = [] then none
    else
      match rest.drop lt.length with
      | ']' :: '(' :: rest2 =>
        let u := rest2.takeWhile (fun c => !(c = ')'))
        if u = [] then none
        else
          match rest2.drop u.length with
          | ')' :: _ => some ('[' :: (lt ++ ']' :: '(' :: (u ++ [')'])), lt, u)
          | _ => none
      | _ => none
  | _ => none

/-- `text.matchAll(MARKDOWN_LINK_REGEX)`: scan left to right; after a hit
resume right after the match, otherwise advance one character.  (On a hit
the scan continues at `s.drop fullMatch.length`; since a full match
always starts with the matched `[`, this equals
`rest.drop (fullMatch.length - 1)`, which is what makes the recursion
structural.) -/
def scanLinksFuel : Nat → List Char → Nat → List MdLinkMatch
  | 0, _, _ => []
  | _, [], _ => []
  | fuel + 1, c :: rest, pos =>
    match matchLinkAt (c :: rest) with
    | some (fm, lt, u) =>
        ⟨pos, fm, lt, u⟩ :: scanLinksFuel fuel (rest.drop (fm.length - 1)) (pos + fm.length)
    | none => scanLinksFuel fuel rest (pos + 1)

/-- `scanLinks` runs the scan with fuel `s.length`; every step consumes at
least one character, so the fuel never runs out before the text does
(a full match is non-empty — it starts with the matched `[`). -/
def scanLinks (s : List Char) (pos : Nat) : List MdLinkMatch :=
  scanLinksFuel s.length s pos

/-- `isCitationUrl`: `new URL(url)` succeeds and its protocol is `http:`
or `https:`.  The WHATWG `URL` parser is a platform builtin, not
repository code; it is modelled as: the string starts with `http://` or
`https://` and has at least one character after the scheme separator. -/
def isCitationUrl (url : List Char) : Bool :=
  (("http://".toList).isPrefixOf url && decide (7 < url.length)) ||
  (("https://".toList).isPrefixOf url && decide (8 < url.length))

/-- The citation extraction shared by both stripping modes: keep the
regex hits with a citation URL and number them with `citationIndex++`. -/
def extractCitations (text : List Char) : List ExtractedCitation :=
  (((scanLinks text 0).filter (fun m => isCitationUrl m.url)).enum).map
    (fun p => ⟨p.1, p.2.url, p.2.title, p.2.fullMatch, p.2.position⟩)

/-- The rewrite loop of `stripCitations`: each citation is removed at
`position - currentOffset` and the offset grows by the removed length. -/
def stripLoop (citations : List ExtractedCitation) (text : List Char) : List Char :=
  (citations.foldl (fun (st : List Char × Nat) cit =>
      let adjustedPosition := cit.position - st.2
      (st.1.take adjustedPosition ++ st.1.drop (adjustedPosition + cit.fullMatch.length),
       st.2 + cit.fullMatch.length))
    (text, 0)).1

/-- `stripCitations` (badge-insertion mode): delete each citation link;
return the stripped text and the extracted citations. -/
def stripCitations (text : List Char) : List Char × List ExtractedCitation :=
  (stripLoop (extractCitations text) text, extractCitations text)

/-- The rewrite loop of `stripCitationsKeepText`: each link is replaced
by its visible title and the offset grows by the length difference. -/
def stripKeepTextLoop (citations : List ExtractedCitation) (text : List Char) : List Char :=
  (citations.foldl (fun (st : List Char × Nat) cit =>
      let adjustedPosition := cit.position - st.2
      (st.1.take adjustedPosition ++ cit.title ++
         st.1.drop (adjustedPosition + cit.fullMatch.length),
       st.2 + (cit.fullMatch.length - cit.title.length)))
    (text, 0)).1

/-- `stripCitationsKeepText` (text-preserving mode). -/
def stripCitationsKeepText (text : List Char) : List Char × List ExtractedCitation :=
  (stripKeepTextLoop (extractCitations text) text, extractCitations text)

/-- Counterexample to C5 as stated: on the scenario-A input the single
extracted citation's position in the original text is 16 — the index of
the `[` after the 16-character prefix `The sky is blue ` — not 17. -/
theorem stripCitations_scenarioA_position_is_16_not_17 :
    ((stripCitations "The sky is blue [NASA](https://nasa.gov/sky).".toList).2.map
      (fun c => c.position)) = [16] ∧ ¬((16 : Nat) = 17) := by
  constructor
  · decide
  · decide

/-- **C5** (amended): on the input
`The sky is blue [NASA](https://nasa.gov/sky).`, citation stripping
extracts exactly one citation with url `https://nasa.gov/sky`, title
`NASA`, and position **16** in the original text, and produces
`The sky is blue .` in badge-insertion mode and
`The sky is blue NASA.` in text-preserving mode. -/
theorem stripCitations_scenarioA :
    stripCitations "The sky is blue [NASA](https://nasa.gov/sky).".toList =
      ("The sky is blue .".toList,
       [⟨0, "https://nasa.gov/sky".toList, "NASA".toList,
         "[NASA](https://nasa.gov/sky)".toList, 16⟩]) ∧
    (stripCitationsKeepText "The sky is blue [NASA](https://nasa.gov/sky).".toList).1 =
      "The sky is blue NASA.".toList := by
  constructor
  · decide
  · decide

/-! ## Research state reducer (`useResearchAgent.ts`)

`researchReducer` is a pure `(state, action) → state` function.  Every
occurrence of `Date.now()` is passed in as the `now` argument.  The
floating-point `tokensPerSecond` quotient is represented exactly as a
`(numerator, denominator)` pair of integers; no verified property reads
it. -/

/-- The usage metrics record.  Times are wall-clock milliseconds. -/
structure UsageMetrics where
  promptTokens : Nat := 0
  completionTokens : Nat := 0
  totalTokens : Nat := 0
  startTime : Nat := 0
  thinkingStartTime : Option Nat := none
  synthesisStartTime : Option Nat := none
  thinkingCharCount : Option Nat := none
  responseCharCount : Option Nat := none
  endTime : Option Nat := none
  durationMs : Option Int := none
  totalDurationMs : Option Int := none
  thinkingDurationMs : Option Int := none
  tokensPerSecond : Option (Int × Int) := none
deriving DecidableEq, Repr

/-- A `Partial<UsageMetrics>` patch (`UPDATE_USAGE` payload). -/
structure UsagePatch where
  promptTokens : Option Nat := none
  completionTokens : Option Nat := none
  totalTokens : Option Nat := none
  startTime : Option Nat := none
  thinkingStartTime : Option Nat := none
  synthesisStartTime : Option Nat := none
  thinkingCharCount : Option Nat := none
  responseCharCount : Option Nat := none
  endTime : Option Nat := none
deriving DecidableEq, Repr

/-- `{ ...usage, ...patch }`. -/
def mergeUsage (u : UsageMetrics) (p : UsagePatch) : UsageMetrics :=
  { u with
    promptTokens := p.promptTokens.getD u.promptTokens
    completionTokens := p.completionTokens.getD u.completionTokens
    totalTokens := p.totalTokens.getD u.totalTokens
    startTime := p.startTime.getD u.startTime
    thinkingStartTime := (p.thinkingStartTime.map some).getD u.thinkingStartTime
    synthesisStartTime := (p.synthesisStartTime.map some).getD u.synthesisStartTime
    thinkingCharCount := (p.thinkingCharCount.map some).getD u.thinkingCharCount
    responseCharCount := (p.responseCharCount.map some).getD u.responseCharCount
    endTime := (p.endTime.map some).getD u.endTime }

/-- JavaScript `a || b` for an optional number `a` (both a missing field
and `0` are falsy). -/
def jsOrNat (a : Option Nat) (b : Nat) : Nat :=
  match a with
  | some n => if n = 0 then b else n
  | none => b

/-- JavaScript truthiness of an optional number. -/
def natTruthy (a : Option Nat) : Bool :=
  match a with
  | some n => !(n = 0)
  | none => false

/-- The research state held by the reducer. -/
structure ResearchState where
  status : String
  model : String
  currentResponse : List Char
  thinkingContent : List Char
  toolCalls : List ToolCall
  sources : List Source
  error : Option String
  lastQuery : Option String
  progressMessage : Option String
  usage : Option UsageMetrics
deriving DecidableEq, Repr

/-- The reducer's action vocabulary. -/
inductive ResearchAction
  | start (query : String)
  | toolCall (payload : ToolCall)
  | thinkingChunk (chunk : List Char)
  | streamChunk (chunk : List Char)
  | sourceAdded (payload : Source)
  | updateUsage (payload : UsagePatch)
  | progressMessage (message : String)
  | complete
  | error (message : String)
  | setModel (model : String)
  | reset
deriving DecidableEq, Repr

/-- `TOOL_CALL`: replace the entry at the first index with the payload's
id (`findIndex` + assignment), or append. -/
def replaceFirstToolCall : List ToolCall → ToolCall → List ToolCall
  | [], _ => []
  | tc :: rest, payload =>
      if tc.id == payload.id then payload :: rest
      else tc :: replaceFirstToolCall rest payload

/-- `researchReducer`. -/
def researchReducer (state : ResearchState) (action : ResearchAction) (now : Nat) :
    ResearchState :=
  match action with
  | .start query =>
      { state with
        status := "searching"
        currentResponse := []
        thinkingContent := []
        toolCalls := []
        sources := []
        error := none
        lastQuery := some query
        progressMessage := some "Planning research strategy..."
        usage := some { promptTokens := 0, completionTokens := 0, totalTokens := 0,
                        startTime := now } }
  | .toolCall payload =>
      if (state.toolCalls.find? (fun tc => tc.id == payload.id)).isSome then
        { state with toolCalls := replaceFirstToolCall state.toolCalls payload }
      else
        { state with toolCalls := state.toolCalls ++ [payload] }
  | .thinkingChunk chunk =>
      let thinkingStartTime := jsOrNat (state.usage.bind (fun u => u.thinkingStartTime)) now
      let newThinking := state.thinkingContent ++ chunk
      { state with
        status := "thinking"
        thinkingContent := newThinking
        progressMessage := none
        usage := state.usage.map (fun u =>
          { u with thinkingStartTime := some thinkingStartTime
                   thinkingCharCount := some newThinking.length }) }
  | .streamChunk chunk =>
      let synthesisStartTime := jsOrNat (state.usage.bind (fun u => u.synthesisStartTime)) now
      let newResponse := state.currentResponse ++ chunk
      { state with
        status := "synthesizing"
        currentResponse := newResponse
        progressMessage := none
        usage := state.usage.map (fun u =>
          { u with synthesisStartTime := some synthesisStartTime
                   responseCharCount := some newResponse.length }) }
  | .sourceAdded payload =>
      if state.sources.any (fun s => s.url == payload.url) then state
      else { state with sources := state.sources ++ [payload] }
  | .updateUsage payload =>
      let merged := mergeUsage (state.usage.getD {}) payload
      let newUsage :=
        match merged.endTime, merged.synthesisStartTime with
        | some endT, some synthT =>
            let durationMs : Int := (endT : Int) - (synthT : Int)
            if 0 < durationMs ∧ 0 < merged.completionTokens then
              { merged with
                durationMs := some durationMs
                tokensPerSecond := some ((merged.completionTokens : Int) * 1000, durationMs) }
            else { merged with durationMs := some durationMs }
        | _, _ => merged
      { state with usage := some newUsage }
  | .progressMessage message =>
      { state with progressMessage := some message }
  | .complete =>
      match state.usage with
      | none => { state with status := "complete" }
      | some u =>
          let synthStartTime := jsOrNat u.synthesisStartTime u.startTime
          let durationMs : Int := (now : Int) - (synthStartTime : Int)
          let totalDurationMs : Int := (now : Int) - (u.startTime : Int)
          let thinkingDurationMs : Option Int :=
            if natTruthy u.thinkingStartTime && natTruthy u.synthesisStartTime then
              some (((u.synthesisStartTime.getD 0 : Nat) : Int) -
                ((u.thinkingStartTime.getD 0 : Nat) : Int))
            else none
          let responseCharCount := jsOrNat u.responseCharCount state.currentResponse.length
          let estimatedResponseTokens := (responseCharCount + 3) / 4
          let tokensPerSecond : Int × Int :=
            if 0 < durationMs ∧ 0 < estimatedResponseTokens then
              ((estimatedResponseTokens : Int) * 1000, durationMs)
            else (0, 1)
          { state with
            status := "complete"
            usage := some { u with
              endTime := some now
              durationMs := some durationMs
              totalDurationMs := some totalDurationMs
              thinkingDurationMs := thinkingDurationMs
              tokensPerSecond := some tokensPerSecond
              responseCharCount := some responseCharCount } }
  | .error message =>
      { state with status := "error", error := some message }
  | .setModel model =>
      { state with model := model }
  | .reset =>
      { state with
        status := "idle"
        currentResponse := []
        thinkingContent := []
        toolCalls := []
        sources := []
        error := none
        lastQuery := none
        usage := none }

/-- **C8**: the discovered-source list never contains two Sources with
the same URL — adding a source whose URL is already present returns the
state unchanged (first occurrence wins, the duplicate is silently
dropped), and the no-duplicate-URL invariant is preserved by every
reducer transition. -/
theorem sources_deduplicated_by_url
    (state : ResearchState) (action : ResearchAction) (now : Nat)
    (hnodup : (state.sources.map (fun s => s.url)).Nodup) :
    ((researchReducer state action now).sources.map (fun s => s.url)).Nodup ∧
    (∀ src, action = .sourceAdded src →
      src.url ∈ state.sources.map (fun s => s.url) →
      researchReducer state action now = state) := by
  constructor
  · cases action with
    | start query => simp [researchReducer]
    | toolCall payload =>
      rw [researchReducer]
      split <;> exact hnodup
    | thinkingChunk chunk => exact hnodup
    | streamChunk chunk => exact hnodup
    | sourceAdded payload =>
      rw [researchReducer]
      split
      · exact hnodup
      · rename_i hnew
        simp only [List.map_append, List.map_cons, List.map_nil]
        rw [List.nodup_append]
        refine ⟨hnodup, List.nodup_singleton _, ?_⟩
        intro x hx hx'
        simp only [List.mem_singleton] at hx'
        subst hx'
        simp only [List.mem_map] at hx
        obtain ⟨s, hs, hurl⟩ := hx
        exact hnew (by
          rw [List.any_eq_true]
          exact ⟨s, hs, by simp [hurl]⟩)
    | updateUsage payload => exact hnodup
    | progressMessage message => exact hnodup
    | complete =>
      rw [researchReducer]
      cases state.usage <;> exact hnodup
    | error message => exact hnodup
    | setModel model => exact hnodup
    | reset => simp [researchReducer]
  · intro src haction hmem
    subst haction
    rw [researchReducer]
    rw [if_pos ?_]
    simp only [List.mem_map] at hmem
    obtain ⟨s, hs, hurl⟩ := hmem
    rw [List.any_eq_true]
    exact ⟨s, hs, by simp [hurl]⟩

/-- Witness for C8: a state holding two distinct-URL sources is returned
unchanged when `https://a.com` is reported again, and its URL list stays
duplicate-free. -/
theorem sources_deduplicated_by_url_witness :
    ((researchReducer
        ⟨"searching", "m", [], [], [],
         [⟨"https://a.com", "A", SourceType.search, 0⟩,
          ⟨"https://b.com", "B", SourceType.extract, 1⟩],
         none, none, none, none⟩
        (.sourceAdded ⟨"https://a.com", "A again", SourceType.extract, 2⟩)
        3).sources.map (fun s => s.url)).Nodup ∧
    (∀ src, (ResearchAction.sourceAdded ⟨"https://a.com", "A again", SourceType.extract, 2⟩) =
        .sourceAdded src →
      src.url ∈ ([⟨"https://a.com", "A", SourceType.search, 0⟩,
          ⟨"https://b.com", "B", SourceType.extract, 1⟩] : List Source).map (fun s => s.url) →
      researchReducer
        ⟨"searching", "m", [], [], [],
         [⟨"https://a.com", "A", SourceType.search, 0⟩,
          ⟨"https://b.com", "B", SourceType.extract, 1⟩],
         none, none, none, none⟩
        (.sourceAdded ⟨"https://a.com", "A again", SourceType.extract, 2⟩)
        3 =
        ⟨"searching", "m", [], [], [],
         [⟨"https://a.com", "A", SourceType.search, 0⟩,
          ⟨"https://b.com", "B", SourceType.extract, 1⟩],
         none, none, none, none⟩) :=
  sources_deduplicated_by_url
    ⟨"searching", "m", [], [], [],
     [⟨"https://a.com", "A", SourceType.search, 0⟩,
      ⟨"https://b.com", "B", SourceType.extract, 1⟩],
     none, none, none, none⟩
    (.sourceAdded ⟨"https://a.com", "A again", SourceType.extract, 2⟩)
    3
    (by decide)

/-! ## Excerpt batch fetcher (`fetchExcerptsBatch` in `excerpt-fetcher.ts`)

`fetchExcerptsBatch` starts `Math.min(concurrencyLimit,
sources.length)` copies of `processItem`, each looping
`while (queue.length > 0) { queue.shift(); await fetchExcerpt(...) }`
over the one shared queue.  The cooperative event-loop execution is
embedded as a small-step transition system: a worker is `ready` when it
is about to poll the queue, `fetching` while its `fetchExcerpt` call is
in flight (the only suspension point), and `done` once it polled an
empty queue.  A fetch is *in flight* exactly when its worker is in the
`fetching` phase. -/

/-- The fixed worker-pool size bound (`concurrencyLimit = 3`). -/
def concurrencyLimit : Nat := 3

/-- Phase of one worker of the pool. -/
inductive WorkerPhase
  | ready
  | fetching (item : Nat)
  | done
deriving DecidableEq, Repr

/-- State of one `fetchExcerptsBatch` run: the shared queue of remaining
item indices and the phase of every started worker. -/
structure BatchFetchState where
  queue : List Nat
  workers : List WorkerPhase
deriving DecidableEq, Repr

/-- The initial state for `n` input pairs:
`Array(Math.min(concurrencyLimit, sources.length))` workers, all about
to poll, and the full queue. -/
def initBatchFetchState (n : Nat) : BatchFetchState :=
  { queue := List.range n
    workers := List.replicate (min concurrencyLimit n) WorkerPhase.ready }

/-- One cooperative step of the pool: a ready worker polls the non-empty
queue and starts a fetch (`queue.shift()` then `await fetchExcerpt`),
a ready worker facing an empty queue exits its loop, or an in-flight
fetch completes and the worker loops back to poll again. -/
inductive BatchFetchStep : BatchFetchState → BatchFetchState → Prop
  | poll (k item : Nat) (rest : List Nat) (s : BatchFetchState)
      (hk : s.workers[k]? = some WorkerPhase.ready)
      (hq : s.queue = item :: rest) :
      BatchFetchStep s { queue := rest, workers := s.workers.set k (WorkerPhase.fetching item) }
  | exit (k : Nat) (s : BatchFetchState)
      (hk : s.workers[k]? = some WorkerPhase.ready)
      (hq : s.queue = []) :
      BatchFetchStep s { s with workers := s.workers.set k WorkerPhase.done }
  | completeFetch (k item : Nat) (s : BatchFetchState)
      (hk : s.workers[k]? = some (WorkerPhase.fetching item)) :
      BatchFetchStep s { s with workers := s.workers.set k WorkerPhase.ready }

/-- The number of fetches in flight: workers in the `fetching` phase. -/
def inFlightCount (s : BatchFetchState) : Nat :=
  s.workers.countP (fun w => match w with | WorkerPhase.fetching _ => true | _ => false)

theorem BatchFetchStep.workers_length {s t : BatchFetchState}
    (h : BatchFetchStep s t) : t.workers.length = s.workers.length := by
  cases h <;> simp

/-- **C9**: for every batch size `n` (0 to N), the excerpt batch fetcher
starts exactly `min 3 n` workers pulling from the shared queue, and in
every state reachable by its cooperative execution at most 3 excerpt
fetches are in flight concurrently. -/
theorem excerpt_batch_fetcher_concurrency_bound
    (n : Nat) (s : BatchFetchState)
    (hreach : Relation.ReflTransGen BatchFetchStep (initBatchFetchState n) s) :
    (initBatchFetchState n).workers.length = min concurrencyLimit n ∧
    inFlightCount s ≤ 3 := by
  refine ⟨by simp [initBatchFetchState], ?_⟩
  have hlen : s.workers.length = min concurrencyLimit n := by
    induction hreach with
    | refl => simp [initBatchFetchState]
    | tail _ hstep ih => rw [hstep.workers_length, ih]
  calc inFlightCount s ≤ s.workers.length := List.countP_le_length _
    _ = min concurrencyLimit n := hlen
    _ ≤ concurrencyLimit := Nat.min_le_left _ _

/-- Witness for C9: a concrete reachable state of a 5-item run — worker 0
fetching item 0, worker 1 fetching item 1, worker 2 about to poll — has
2 ≤ 3 fetches in flight (and the run started `min 3 5 = 3` workers). -/
theorem excerpt_batch_fetcher_concurrency_bound_witness :
    (initBatchFetchState 5).workers.length = min concurrencyLimit 5 ∧
    inFlightCount ⟨[2, 3, 4],
      [WorkerPhase.fetching 0, WorkerPhase.fetching 1, WorkerPhase.ready]⟩ ≤ 3 :=
  excerpt_batch_fetcher_concurrency_bound 5
    ⟨[2, 3, 4], [WorkerPhase.fetching 0, WorkerPhase.fetching 1, WorkerPhase.ready]⟩
    (Relation.ReflTransGen.tail
      (Relation.ReflTransGen.tail Relation.ReflTransGen.refl
        (BatchFetchStep.poll 0 0 [1, 2, 3, 4] (initBatchFetchState 5) (by decide) (by decide)))
      (BatchFetchStep.poll 1 1 [2, 3, 4]
        ⟨[1, 2, 3, 4],
         [WorkerPhase.fetching 0, WorkerPhase.ready, WorkerPhase.ready]⟩
        (by decide) (by decide)))

end AgenticSearch
